import Mathlib

/-!
Verification of the BRND-API brand-voting ledger and its HTTP boundary.

The repository ships two NestJS controllers (BrandController, UserController)
plus module wiring; the vote-and-point ledger behind them (QuotaEnforcer,
VoteLedger, PointAccount, VoteSession) is described by the specification and
modelled here from it.  The controllers themselves are embedded directly from
the source.
-/

namespace BRND

/-- A committed brand-vote record: one brand at one position inside the batch
a user cast for a given day. -/
structure VoteRecord where
  id : Nat
  userId : Nat
  brandId : String
  date : Nat
  position : Nat
  batchId : Nat
deriving Repr, DecidableEq

/-- An append-only point-ledger entry; exactly one per committed vote batch. -/
structure PointAction where
  id : Nat
  userId : Nat
  amount : Int
  reason : String
  batchId : Nat
deriving Repr, DecidableEq

/-- The persistent state of the ledger: the committed vote records, the
point-action ledger, and fresh-id counters of the storage layer. -/
structure LedgerState where
  votes : List VoteRecord
  points : List PointAction
  nextBatchId : Nat
  nextVoteId : Nat
  nextActionId : Nat
deriving Repr, DecidableEq

def initState : LedgerState := ⟨[], [], 0, 0, 0⟩

/-- The typed domain errors of the error-handling taxonomy. -/
inductive DomainError where
  | QuotaExceeded
  | ValidationError (detail : String)
  | InvalidBrandReference (brandId : String)
  | InternalError (detail : String)
deriving Repr, DecidableEq

instance instDecEqExceptPair {ε α : Type} [DecidableEq ε] [DecidableEq α] :
    DecidableEq (Except ε α) := fun a b =>
  match a, b with
  | .error x, .error y =>
    if h : x = y then .isTrue (by rw [h]) else .isFalse (by simp [h])
  | .error _, .ok _ => .isFalse (by simp)
  | .ok _, .error _ => .isFalse (by simp)
  | .ok x, .ok y =>
    if h : x = y then .isTrue (by rw [h]) else .isFalse (by simp [h])

/-- Modelled from the spec: the storage-level test of QuotaEnforcer, true when
some committed vote record already exists for the user and day. -/
def hasBatch (st : LedgerState) (u d : Nat) : Bool :=
  st.votes.any fun v => v.userId == u && v.date == d

/-- Modelled from the spec: QuotaEnforcer.canVote, true exactly when no
committed batch exists for the pair of user and day. -/
def canVote (st : LedgerState) (u d : Nat) : Bool :=
  !hasBatch st u d

/-- Builds the vote records of one batch: position 1 plus index in submission
order, consecutive storage ids, one shared batch id. -/
def mkRecords (u d bid : Nat) (vid pos : Nat) : List String → List VoteRecord
  | [] => []
  | b :: rest =>
    { id := vid, userId := u, brandId := b, date := d,
      position := pos, batchId := bid } :: mkRecords u d bid (vid + 1) (pos + 1) rest

/-- Modelled from the spec: VoteLedger.recordVotes.  Validates the batch
(non-empty, duplicate-free, every brand id resolvable), enforces the
uniqueness constraint on user and day, then commits the whole batch with
positions assigned by submission order. -/
def recordVotes (st : LedgerState) (u : Nat) (brandIds : List String) (d : Nat)
    (catalog : List String) : Except DomainError (LedgerState × List VoteRecord) :=
  if brandIds.isEmpty then
    .error (.ValidationError ("empty batch"))
  else if ¬ brandIds.Nodup then
    .error (.ValidationError ("duplicate brand ids"))
  else
    match brandIds.find? (fun b => !catalog.contains b) with
    | some b => .error (.InvalidBrandReference b)
    | none =>
      if hasBatch st u d then
        .error .QuotaExceeded
      else
        let bid := st.nextBatchId
        let recs := mkRecords u d bid st.nextVoteId 1 brandIds
        .ok ({ st with
                votes := st.votes ++ recs,
                nextBatchId := bid + 1,
                nextVoteId := st.nextVoteId + brandIds.length }, recs)

/-- The point balance of a user, recomputed from the append-only ledger. -/
def balance (st : LedgerState) (u : Nat) : Int :=
  (st.points.filter fun pa => pa.userId == u).foldl (fun acc pa => acc + pa.amount) 0

/-- Modelled from the spec: PointAccount.awardPoints, idempotent on the batch
id: when a point action with this batch id already exists nothing is appended
and the recorded balance is returned unchanged. -/
def awardPoints (st : LedgerState) (u : Nat) (amount : Int) (reason : String)
    (bid : Nat) : LedgerState × Int :=
  if st.points.any (fun pa => pa.batchId == bid) then
    (st, balance st u)
  else
    let st' : LedgerState :=
      { st with
          points := st.points ++
            [{ id := st.nextActionId, userId := u, amount := amount,
               reason := reason, batchId := bid }],
          nextActionId := st.nextActionId + 1 }
    (st', balance st' u)

/-- Modelled from the spec: VoteSession.voteForBrands, running the quota
check, the ledger insert and the point award in one transaction scope; the
point policy is the flat one-point-per-vote choice left open by the spec.  On
any failure the input state is returned untouched (the rollback) together
with the originating error. -/
def voteForBrands (st : LedgerState) (u : Nat) (brandIds : List String) (d : Nat)
    (catalog : List String) : LedgerState × Except DomainError (List VoteRecord) :=
  if canVote st u d then
    match recordVotes st u brandIds d catalog with
    | .error e => (st, .error e)
    | .ok (st1, recs) =>
      let res := awardPoints st1 u (brandIds.length : Int) "vote batch" st.nextBatchId
      (res.1, .ok recs)
  else
    (st, .error .QuotaExceeded)

/-! ### HTTP boundary

The value model of the JSON payloads produced by the controllers, and the
two controllers embedded from the source: BrandController (getAllBrands,
voteBrands) and UserController (getUserById, getVotes). -/

inductive JsVal where
  | str (s : String)
  | num (n : Int)
  | arr (xs : List JsVal)
  | obj (fields : List (String × JsVal))
deriving Repr

inductive HttpResponse where
  | success (payload : JsVal)
  | failure (envelope : JsVal)
deriving Repr

/-- Modelled from the spec: the shared success helper of the utils module,
which is not under src; a success response wraps the payload directly. -/
def hasResponse (payload : JsVal) : HttpResponse :=
  .success payload

/-- Modelled from the spec: the shared failure helper of the utils module,
which is not under src; a failure response is the structured envelope holding
statusCode, context and message. -/
def hasError (statusCode : Int) (context message : String) : HttpResponse :=
  .failure (.obj [("statusCode", .num statusCode), ("context", .str context),
                  ("message", .str message)])

def INTERNAL_SERVER_ERROR : Int := 500

/-- Modelled from the spec: the string summary produced by calling toString
on a thrown error at the boundary; a one-line name-plus-detail summary. -/
def DomainError.summary : DomainError → String
  | .QuotaExceeded => "Error: QuotaExceeded"
  | .ValidationError s => "Error: ValidationError: " ++ s
  | .InvalidBrandReference b => "Error: InvalidBrandReference: " ++ b
  | .InternalError s => "Error: InternalError: " ++ s

/-- A brand entity as selected by the service layer: id, name, url and
imageUrl. -/
structure BrandEntity where
  id : String
  name : String
  url : String
  imageUrl : String
deriving Repr, DecidableEq

/-- A vote record joined with its brand entity, as returned by the service
to the controllers. -/
structure VoteWithBrand where
  id : Nat
  userId : Nat
  date : Nat
  position : Nat
  batchId : Nat
  brand : BrandEntity
deriving Repr, DecidableEq

/-- The per-record projection both controllers apply to a vote joined with
its brand: id, date, position and the brand summary restricted to id, name
and imageUrl. -/
def mapVote (v : VoteWithBrand) : JsVal :=
  .obj [("id", .num v.id), ("date", .num v.date), ("position", .num v.position),
        ("brand", .obj [("id", .str v.brand.id), ("name", .str v.brand.name),
                        ("imageUrl", .str v.brand.imageUrl)])]

/-- BrandController.voteBrands: maps a successful service result to the
projected vote list, and converts any thrown error to the internal-error
envelope with context voteBrands and the error's string summary. -/
def voteBrands (serviceResult : Except DomainError (List VoteWithBrand)) :
    HttpResponse :=
  match serviceResult with
  | .ok votes => hasResponse (.arr (votes.map mapVote))
  | .error e => hasError INTERNAL_SERVER_ERROR ("voteBrands") e.summary

/-- A brand entity rendered with the selected columns id, name, url and
imageUrl. -/
def brandFull (b : BrandEntity) : JsVal :=
  .obj [("id", .str b.id), ("name", .str b.name), ("url", .str b.url),
        ("imageUrl", .str b.imageUrl)]

/-- BrandController.getAllBrands: destructures the page of brands and the
total count from the service and wraps them under the keys pageId, count and
brands. -/
def getAllBrands (search : String) (pageId limit : Nat)
    (getAll : String → Nat → Nat → List BrandEntity × Nat) : HttpResponse :=
  let res := getAll search pageId limit
  hasResponse (.obj [("pageId", .num pageId), ("count", .num res.2),
                     ("brands", .arr (res.1.map brandFull))])

/-- A JavaScript number as it appears at the boundary: either NaN or an
integer value. -/
inductive JsNum where
  | nan
  | int (n : Int)
deriving Repr, DecidableEq

def decDigits : List Char → Nat → Option Nat
  | [], acc => some acc
  | c :: rest, acc =>
    if c.isDigit then decDigits rest (acc * 10 + (c.toNat - 48)) else none

/-- Modelled from the spec: the JavaScript Number coercion applied by the
controller to the raw unixDate path parameter; the empty string coerces to
zero, a decimal integer string to its value, anything else to NaN. -/
def toNumber (s : String) : JsNum :=
  match s.data with
  | [] => .int 0
  | ['-'] => .nan
  | '-' :: rest =>
    match decDigits rest 0 with
    | some n => .int (-(n : Int))
    | none => .nan
  | cs =>
    match decDigits cs 0 with
    | some n => .int n
    | none => .nan

/-- UserController.getVotes: passes Number of the raw unixDate parameter to
the service without any validation and wraps the projected vote list as the
success payload. -/
def getVotes (getUserVotes : JsNum → List VoteWithBrand)
    (unixDate : String) : HttpResponse :=
  hasResponse (.arr ((getUserVotes (toNumber unixDate)).map mapVote))

/-- A user entity; the entity carries more columns than the profile read
exposes. -/
structure UserEntity where
  id : Nat
  username : String
  createdAt : Nat
  points : Int
deriving Repr, DecidableEq

def userFieldVal (u : UserEntity) (f : String) : Option JsVal :=
  if f = "id" then some (.num u.id)
  else if f = "username" then some (.str u.username)
  else if f = "createdAt" then some (.num u.createdAt)
  else if f = "points" then some (.num u.points)
  else none

/-- Modelled from the spec: UserService.getById, which is not under src; an
ORM find with a select list, projecting the user entity onto the requested
columns. -/
def userGetById (u : UserEntity) (fields : List String) : JsVal :=
  .obj (fields.filterMap fun f => (userFieldVal u f).map fun v => (f, v))

/-- UserController.getUserById: reads the user with the select list id,
username, createdAt. -/
def getUserById (u : UserEntity) : JsVal :=
  userGetById u ["id", "username", "createdAt"]

/-- The status code recorded in a failure envelope, when present. -/
def responseStatus : HttpResponse → Option Int
  | .success _ => none
  | .failure (.obj fields) =>
    match fields.lookup ("statusCode") with
    | some (.num n) => some n
    | _ => none
  | .failure _ => none

/-- A response whose envelope carries a 4xx status code. -/
def isClientError (r : HttpResponse) : Bool :=
  match responseStatus r with
  | some n => decide (400 ≤ n ∧ n < 500)
  | none => false

/-- The field names of a successful object payload. -/
def payloadKeys : HttpResponse → Option (List String)
  | .success (.obj fields) => some (fields.map Prod.fst)
  | _ => none

/-- A concrete committed state: the result of one vote for brand A by user 1
on day 0. -/
def exState : LedgerState :=
  { votes := [{ id := 0, userId := 1, brandId := "A", date := 0,
                position := 1, batchId := 0 }],
    points := [{ id := 0, userId := 1, amount := 1, reason := "vote batch",
                 batchId := 0 }],
    nextBatchId := 1, nextVoteId := 1, nextActionId := 1 }

/-! ### Basic lemmas about the batch builder -/

theorem mkRecords_map_position (u d bid : Nat) (bs : List String) :
    ∀ vid pos, (mkRecords u d bid vid pos bs).map (fun r => r.position) =
      List.range' pos bs.length := by
  induction bs with
  | nil => intro vid pos; simp [mkRecords]
  | cons b rest ih =>
    intro vid pos
    simp [mkRecords, List.range'_succ, ih]

theorem mkRecords_map_brandId (u d bid : Nat) (bs : List String) :
    ∀ vid pos, (mkRecords u d bid vid pos bs).map (fun r => r.brandId) = bs := by
  induction bs with
  | nil => intro vid pos; simp [mkRecords]
  | cons b rest ih =>
    intro vid pos
    simp [mkRecords, ih]

theorem mkRecords_mem (u d bid : Nat) (bs : List String) :
    ∀ vid pos r, r ∈ mkRecords u d bid vid pos bs →
      r.userId = u ∧ r.date = d ∧ r.batchId = bid := by
  induction bs with
  | nil => intro vid pos r hr; simp [mkRecords] at hr
  | cons b rest ih =>
    intro vid pos r hr
    simp only [mkRecords, List.mem_cons] at hr
    rcases hr with hr | hr
    · subst hr; exact ⟨rfl, rfl, rfl⟩
    · exact ih _ _ _ hr

theorem mkRecords_ne_nil (u d bid vid pos : Nat) (b : String) (rest : List String) :
    mkRecords u d bid vid pos (b :: rest) ≠ [] := by
  simp [mkRecords]

/-! ### Inversion of the ledger operations -/

theorem recordVotes_ok_inv (st : LedgerState) (u : Nat) (ids : List String)
    (d : Nat) (cat : List String) (st1 : LedgerState) (recs : List VoteRecord)
    (h : recordVotes st u ids d cat = .ok (st1, recs)) :
    ids ≠ [] ∧ hasBatch st u d = false ∧
    recs = mkRecords u d st.nextBatchId st.nextVoteId 1 ids ∧
    st1 = { st with
      votes := st.votes ++ recs,
      nextBatchId := st.nextBatchId + 1,
      nextVoteId := st.nextVoteId + ids.length } := by
  unfold recordVotes at h
  split at h
  · exact absurd h (by simp)
  · split at h
    · exact absurd h (by simp)
    · split at h
      · exact absurd h (by simp)
      · split at h
        · exact absurd h (by simp)
        · rename_i hempty _ _ _ hquota
          simp only [Except.ok.injEq, Prod.mk.injEq] at h
          refine ⟨by simpa using hempty, by simpa using hquota, h.2.symm, ?_⟩
          rw [h.1.symm, h.2.symm]

theorem recordVotes_success (st : LedgerState) (u : Nat) (ids : List String)
    (d : Nat) (cat : List String)
    (hne : ids ≠ []) (hnd : ids.Nodup) (hres : ∀ b ∈ ids, b ∈ cat)
    (hquota : hasBatch st u d = false) :
    recordVotes st u ids d cat =
      .ok ({ st with
              votes := st.votes ++ mkRecords u d st.nextBatchId st.nextVoteId 1 ids,
              nextBatchId := st.nextBatchId + 1,
              nextVoteId := st.nextVoteId + ids.length },
           mkRecords u d st.nextBatchId st.nextVoteId 1 ids) := by
  have hfind : ids.find? (fun b => !decide (b ∈ cat)) = none := by
    rw [List.find?_eq_none]
    intro b hb
    simpa using hres b hb
  unfold recordVotes
  simp [hne, hnd, hfind, hquota]

theorem awardPoints_votes (st : LedgerState) (u : Nat) (a : Int) (r : String)
    (bid : Nat) : (awardPoints st u a r bid).1.votes = st.votes := by
  unfold awardPoints
  split <;> rfl

theorem awardPoints_fresh (st : LedgerState) (u : Nat) (a : Int) (r : String)
    (bid : Nat) (h : st.points.any (fun pa => pa.batchId == bid) = false) :
    (awardPoints st u a r bid).1.points =
      st.points ++ [{ id := st.nextActionId, userId := u, amount := a,
                      reason := r, batchId := bid }] := by
  unfold awardPoints
  simp [h]

theorem voteForBrands_ok_inv (st : LedgerState) (u : Nat) (ids : List String)
    (d : Nat) (cat : List String) (st' : LedgerState) (recs : List VoteRecord)
    (h : voteForBrands st u ids d cat = (st', .ok recs)) :
    ids ≠ [] ∧ hasBatch st u d = false ∧
    recs = mkRecords u d st.nextBatchId st.nextVoteId 1 ids ∧
    st'.votes = st.votes ++ recs := by
  unfold voteForBrands at h
  split at h
  · rename_i hcan
    split at h
    · exact absurd h (by simp)
    · rename_i st1 recs1 hrec
      obtain ⟨hne, hqu, hrecs, hst1⟩ := recordVotes_ok_inv st u ids d cat st1 recs1 hrec
      simp only [Prod.mk.injEq, Except.ok.injEq] at h
      refine ⟨hne, hqu, h.2 ▸ hrecs, ?_⟩
      rw [← h.1, awardPoints_votes, hst1, ← h.2, hrecs]
  · exact absurd h (by simp)

/-! ### State invariants and reachability -/

/-- At most one committed batch per user and day: any two vote records of the
same user for the same day belong to the same batch. -/
def AtMostOneBatch (st : LedgerState) : Prop :=
  ∀ v ∈ st.votes, ∀ w ∈ st.votes,
    v.userId = w.userId → v.date = w.date → v.batchId = w.batchId

/-- Strict pairing between vote batches and point actions: every committed
vote record has a point action with its batch id, every point action has a
vote record with its batch id, and a batch id identifies at most one point
action. -/
def Paired (st : LedgerState) : Prop :=
  (∀ v ∈ st.votes, ∃ pa ∈ st.points, pa.batchId = v.batchId) ∧
  (∀ pa ∈ st.points, ∃ v ∈ st.votes, v.batchId = pa.batchId) ∧
  (∀ pa ∈ st.points, ∀ qa ∈ st.points, pa.batchId = qa.batchId → pa = qa)

/-- Every committed batch id is below the fresh-id counter. -/
def BatchIdsFresh (st : LedgerState) : Prop :=
  (∀ v ∈ st.votes, v.batchId < st.nextBatchId) ∧
  (∀ pa ∈ st.points, pa.batchId < st.nextBatchId)

def Inv (st : LedgerState) : Prop :=
  BatchIdsFresh st ∧ AtMostOneBatch st ∧ Paired st

/-- The states reachable from the empty ledger through the cast-vote
operation; vote records and point actions are only ever created together by
VoteSession. -/
inductive Reachable : LedgerState → Prop where
  | init : Reachable initState
  | step (st : LedgerState) (u : Nat) (ids : List String) (d : Nat)
      (cat : List String) : Reachable st →
      Reachable (voteForBrands st u ids d cat).1

theorem hasBatch_false_iff (st : LedgerState) (u d : Nat) :
    hasBatch st u d = false ↔ ∀ v ∈ st.votes, ¬(v.userId = u ∧ v.date = d) := by
  simp [hasBatch, List.any_eq_false]

theorem points_any_eq_false (l : List PointAction) (bid : Nat)
    (h : ∀ pa ∈ l, pa.batchId < bid) :
    l.any (fun pa => pa.batchId == bid) = false := by
  simp only [List.any_eq_false]
  intro pa hpa
  simp [Nat.ne_of_lt (h pa hpa)]

theorem mkRecords_head_mem (u d bid vid pos : Nat) (bs : List String)
    (h : bs ≠ []) : ∃ r ∈ mkRecords u d bid vid pos bs, r.batchId = bid := by
  cases bs with
  | nil => exact absurd rfl h
  | cons b rest =>
    exact ⟨{ id := vid, userId := u, brandId := b, date := d,
             position := pos, batchId := bid }, by simp [mkRecords], rfl⟩

theorem inv_init : Inv initState := by
  refine ⟨⟨?_, ?_⟩, ?_, ?_, ?_, ?_⟩
  · intro v hv; simp [initState] at hv
  · intro pa hpa; simp [initState] at hpa
  · intro v hv; simp [initState] at hv
  · intro v hv; simp [initState] at hv
  · intro pa hpa; simp [initState] at hpa
  · intro pa hpa; simp [initState] at hpa

theorem awardPoints_fresh_state (st : LedgerState) (u : Nat) (a : Int)
    (r : String) (bid : Nat)
    (h : st.points.any (fun pa => pa.batchId == bid) = false) :
    (awardPoints st u a r bid).1 =
      { st with
          points := st.points ++
            [{ id := st.nextActionId, userId := u, amount := a,
               reason := r, batchId := bid }],
          nextActionId := st.nextActionId + 1 } := by
  unfold awardPoints
  simp [h]

theorem inv_step (st : LedgerState) (u : Nat) (ids : List String) (d : Nat)
    (cat : List String) (hinv : Inv st) :
    Inv (voteForBrands st u ids d cat).1 := by
  unfold voteForBrands
  split
  · -- quota check passed
    split
    · -- recordVotes failed: state unchanged
      exact hinv
    · -- recordVotes committed
      rename_i st1 recs hrec
      obtain ⟨hne, hqu, hrecs, hst1⟩ := recordVotes_ok_inv st u ids d cat st1 recs hrec
      obtain ⟨⟨hfv, hfp⟩, hone, hp1, hp2, hp3⟩ := hinv
      set bid := st.nextBatchId with hbid
      have hst1pts : st1.points = st.points := by rw [hst1]
      have hany : st1.points.any (fun pa => pa.batchId == bid) = false := by
        rw [hst1pts]
        exact points_any_eq_false st.points bid hfp
      simp only []
      rw [awardPoints_fresh_state st1 u (ids.length : Int) "vote batch" bid hany]
      set pa : PointAction :=
        { id := st1.nextActionId, userId := u, amount := (ids.length : Int),
          reason := "vote batch", batchId := bid } with hpa
      have hrmem : ∀ r ∈ recs, r.userId = u ∧ r.date = d ∧ r.batchId = bid := by
        intro r hr
        rw [hrecs] at hr
        exact mkRecords_mem u d bid ids st.nextVoteId 1 r hr
      have hnotud : ∀ v ∈ st.votes, ¬(v.userId = u ∧ v.date = d) :=
        (hasBatch_false_iff st u d).1 hqu
      have hvotes1 : st1.votes = st.votes ++ recs := by rw [hst1]
      have hnb1 : st1.nextBatchId = bid + 1 := by rw [hst1]
      refine ⟨⟨?_, ?_⟩, ?_, ?_, ?_, ?_⟩
      · -- vote batch ids fresh
        intro v hv
        simp only [hvotes1, hnb1, List.mem_append] at hv ⊢
        rcases hv with hv | hv
        · exact Nat.lt_succ_of_lt (hfv v hv)
        · rw [(hrmem v hv).2.2]; exact Nat.lt_succ_self bid
      · -- point batch ids fresh
        intro q hq
        simp only [hst1pts, hnb1, List.mem_append, List.mem_singleton] at hq ⊢
        rcases hq with hq | hq
        · exact Nat.lt_succ_of_lt (hfp q hq)
        · rw [hq]; exact Nat.lt_succ_self bid
      · -- at most one batch per user and day
        intro v hv w hw huv hdv
        simp only [hvotes1, List.mem_append] at hv hw
        rcases hv with hv | hv <;> rcases hw with hw | hw
        · exact hone v hv w hw huv hdv
        · obtain ⟨hwu, hwd, _⟩ := hrmem w hw
          exact absurd ⟨huv.trans hwu, hdv.trans hwd⟩ (hnotud v hv)
        · obtain ⟨hvu, hvd, _⟩ := hrmem v hv
          exact absurd ⟨huv.symm.trans hvu, hdv.symm.trans hvd⟩ (hnotud w hw)
        · rw [(hrmem v hv).2.2, (hrmem w hw).2.2]
      · -- every vote record has a point action
        intro v hv
        simp only [hvotes1, hst1pts, List.mem_append] at hv ⊢
        rcases hv with hv | hv
        · obtain ⟨q, hq, hqb⟩ := hp1 v hv
          exact ⟨q, by simp [List.mem_append, hq], hqb⟩
        · refine ⟨pa, by simp, ?_⟩
          rw [(hrmem v hv).2.2]
      · -- every point action has a vote record
        intro q hq
        simp only [hst1pts, hvotes1, List.mem_append, List.mem_singleton] at hq ⊢
        rcases hq with hq | hq
        · obtain ⟨v, hv, hvb⟩ := hp2 q hq
          exact ⟨v, by simp [List.mem_append, hv], hvb⟩
        · obtain ⟨r, hr, hrb⟩ := mkRecords_head_mem u d bid st.nextVoteId 1 ids hne
          refine ⟨r, Or.inr (hrecs ▸ hr), ?_⟩
          rw [hrb, hq]
      · -- at most one point action per batch id
        intro q hq q' hq' hqq
        simp only [hst1pts, List.mem_append, List.mem_singleton] at hq hq'
        rcases hq with hq | hq <;> rcases hq' with hq' | hq'
        · exact hp3 q hq q' hq' hqq
        · have hqb : q.batchId = bid := by rw [hqq, hq']
          exact absurd hqb (Nat.ne_of_lt (hfp q hq))
        · have hqb : q'.batchId = bid := by rw [← hqq, hq]
          exact absurd hqb (Nat.ne_of_lt (hfp q' hq'))
        · rw [hq, hq']
  · -- quota check failed: state unchanged
    exact hinv

theorem reachable_inv (st : LedgerState) (h : Reachable st) : Inv st := by
  induction h with
  | init => exact inv_init
  | step st u ids d cat _ ih => exact inv_step st u ids d cat ih

/-! ### Claim theorems on the ledger -/

/-- C2: canVote is true exactly when no committed batch exists for the user
and day; every reachable state has at most one committed batch per user and
day; after a committed voteForBrands the user can no longer vote for that
day, while canVote for any other user or day is unchanged. -/
theorem canVote_quota_invariant :
    (∀ st u d, canVote st u d = true ↔
      ¬ ∃ v ∈ st.votes, v.userId = u ∧ v.date = d) ∧
    (∀ st, Reachable st → AtMostOneBatch st) ∧
    (∀ st u ids d cat st' recs,
        voteForBrands st u ids d cat = (st', Except.ok recs) →
        canVote st' u d = false ∧
        ∀ u' d', u' ≠ u ∨ d' ≠ d → canVote st' u' d' = canVote st u' d') := by
  refine ⟨?_, ?_, ?_⟩
  · intro st u d
    rw [canVote, Bool.not_eq_true', hasBatch_false_iff]
    simp
  · exact fun st h => (reachable_inv st h).2.1
  · intro st u ids d cat st' recs h
    obtain ⟨hne, hqu, hrecs, hv⟩ := voteForBrands_ok_inv st u ids d cat st' recs h
    have hmem : ∀ r ∈ recs, r.userId = u ∧ r.date = d ∧ r.batchId = st.nextBatchId := by
      intro r hr
      rw [hrecs] at hr
      exact mkRecords_mem u d st.nextBatchId ids st.nextVoteId 1 r hr
    obtain ⟨r0, hr0, _⟩ := mkRecords_head_mem u d st.nextBatchId st.nextVoteId 1 ids hne
    have hr0recs : r0 ∈ recs := hrecs ▸ hr0
    constructor
    · have hb : hasBatch st' u d = true := by
        rw [hasBatch, List.any_eq_true]
        refine ⟨r0, by rw [hv]; exact List.mem_append_right _ hr0recs, ?_⟩
        simp [(hmem r0 hr0recs).1, (hmem r0 hr0recs).2.1]
      simp [canVote, hb]
    · intro u' d' hmis
      have hrecsany : recs.any (fun v => v.userId == u' && v.date == d') = false := by
        rw [List.any_eq_false]
        intro r hr
        obtain ⟨h1, h2, _⟩ := hmem r hr
        simp only [h1, h2, Bool.and_eq_true, beq_iff_eq, not_and]
        intro hu hd
        rcases hmis with hx | hx
        · exact hx hu.symm
        · exact hx hd.symm
      simp only [canVote, hasBatch]
      rw [hv, List.any_append, hrecsany, Bool.or_false]

/-- Closed witness for C2 at a concrete cast: after user 1 votes for brand A
on day 0, canVote is false for that pair. -/
theorem canVote_quota_invariant_witness :
    canVote exState 1 0 = false ∧ AtMostOneBatch initState := by
  have h := canVote_quota_invariant
  refine ⟨?_, h.2.1 initState Reachable.init⟩
  exact (h.2.2 initState 1 ["A"] 0 ["A"] exState
    [{ id := 0, userId := 1, brandId := "A", date := 0,
       position := 1, batchId := 0 }] (by decide)).1

/-- C3: every reachable state pairs each committed vote batch with exactly one
point action on the same batch id and admits no orphan on either side; a
failing voteForBrands leaves the state untouched (full rollback) and the
failing step's error is surfaced unchanged. -/
theorem vote_point_atomicity :
    (∀ st, Reachable st → Paired st) ∧
    (∀ st u ids d cat e,
        (voteForBrands st u ids d cat).2 = .error e →
        (voteForBrands st u ids d cat).1 = st) ∧
    (∀ st u ids d cat e, canVote st u d = true →
        recordVotes st u ids d cat = .error e →
        voteForBrands st u ids d cat = (st, .error e)) := by
  refine ⟨fun st h => (reachable_inv st h).2.2, ?_, ?_⟩
  · intro st u ids d cat e h
    by_cases hcan : canVote st u d = true
    · cases hrec : recordVotes st u ids d cat with
      | error e' => simp [voteForBrands, hcan, hrec]
      | ok p =>
        exfalso
        simp [voteForBrands, hcan, hrec] at h
    · simp [voteForBrands, hcan]
  · intro st u ids d cat e hcan hrec
    simp [voteForBrands, hcan, hrec]

/-- Closed witness for C3: the empty ledger is strictly paired, and a second
vote by user 1 on day 0 against the already committed state rolls back to the
same state. -/
theorem vote_point_atomicity_witness :
    Paired initState ∧ (voteForBrands exState 1 ["A"] 0 ["A"]).1 = exState :=
  ⟨vote_point_atomicity.1 initState Reachable.init,
   vote_point_atomicity.2.1 exState 1 ["A"] 0 ["A"] DomainError.QuotaExceeded
     (by decide)⟩

/-- C4: awardPoints is idempotent on the batch id: a repeated invocation with
the same batch id returns exactly the first invocation's state and balance,
the returned balance is the ledger balance after the first application, and
at most one point action for the batch id is ever added. -/
theorem awardPoints_idempotent (st : LedgerState) (u : Nat) (a : Int)
    (r : String) (bid : Nat) (a' : Int) (r' : String) :
    awardPoints (awardPoints st u a r bid).1 u a' r' bid = awardPoints st u a r bid ∧
    (awardPoints st u a r bid).2 = balance (awardPoints st u a r bid).1 u ∧
    ((awardPoints (awardPoints st u a r bid).1 u a' r' bid).1.points.filter
        (fun pa => pa.batchId == bid)).length ≤
      (st.points.filter (fun pa => pa.batchId == bid)).length + 1 := by
  by_cases h : st.points.any (fun pa => pa.batchId == bid) = true
  · refine ⟨by simp [awardPoints, h], by simp [awardPoints, h], ?_⟩
    simp [awardPoints, h]
  · refine ⟨?_, by simp [awardPoints, h], ?_⟩
    · simp only [awardPoints, h]
      simp [List.any_append]
    · simp only [awardPoints, h]
      simp [List.any_append, List.filter_append]

/-- C5: an accepted batch (non-empty, duplicate-free, resolvable, quota free)
commits records whose positions are exactly the contiguous sequence from 1 to
the batch size in submission order, the first listed brand receiving
position 1. -/
theorem recordVotes_positions (st : LedgerState) (u d : Nat)
    (cat ids : List String)
    (h1 : ids ≠ []) (h2 : ids.Nodup) (h3 : ∀ b ∈ ids, b ∈ cat)
    (h4 : canVote st u d = true) :
    ∃ st' recs,
      recordVotes st u ids d cat = .ok (st', recs) ∧
      (voteForBrands st u ids d cat).2 = .ok recs ∧
      recs.map (fun r => r.position) = List.range' 1 ids.length ∧
      recs.map (fun r => r.brandId) = ids := by
  have hqu : hasBatch st u d = false := by
    rw [canVote, Bool.not_eq_true'] at h4
    exact h4
  have hrec := recordVotes_success st u ids d cat h1 h2 h3 hqu
  refine ⟨_, _, hrec, ?_, ?_, ?_⟩
  · simp [voteForBrands, h4, hrec]
  · exact mkRecords_map_position u d st.nextBatchId ids st.nextVoteId 1
  · exact mkRecords_map_brandId u d st.nextBatchId ids st.nextVoteId 1

/-- Closed witness for C5: voting for B, A, C in that order yields positions
1, 2, 3 with B first. -/
theorem recordVotes_positions_witness :
    ∃ st' recs,
      recordVotes initState 1 ["B", "A", "C"] 0 ["A", "B", "C"] = .ok (st', recs) ∧
      (voteForBrands initState 1 ["B", "A", "C"] 0 ["A", "B", "C"]).2 = .ok recs ∧
      recs.map (fun r => r.position) =
        List.range' 1 (["B", "A", "C"] : List String).length ∧
      recs.map (fun r => r.brandId) = ["B", "A", "C"] :=
  recordVotes_positions initState 1 0 ["A", "B", "C"] ["B", "A", "C"]
    (by decide) (by decide) (by decide) (by decide)

/-! ### Claim theorems on the HTTP boundary -/

/-- C1 counterexample: when the cast-vote service signals the expected domain
failure QuotaExceeded, the boundary response carries status 500, not a
4xx-equivalent status, refuting the claimed 4xx mapping of expected domain
failures. -/
theorem voteBrands_quota_not_client_error :
    responseStatus (voteBrands (.error .QuotaExceeded)) = some 500 ∧
    isClientError (voteBrands (.error .QuotaExceeded)) = false :=
  ⟨rfl, rfl⟩

/-- C1 (amended): every failure of the cast-vote service call, the expected
domain failures QuotaExceeded, ValidationError and InvalidBrandReference
included, is caught at the voteBrands boundary and converted to the same
generic internal-error envelope with status 500; no failure is mapped to a
4xx status. -/
theorem voteBrands_all_failures_internal :
    ∀ e : DomainError,
      voteBrands (.error e) = hasError 500 "voteBrands" e.summary ∧
      responseStatus (voteBrands (.error e)) = some 500 ∧
      isClientError (voteBrands (.error e)) = false :=
  fun _ => ⟨rfl, rfl, rfl⟩

/-- C6 counterexample: the successful list-brands payload at a concrete input
has the keys pageId, count and brands, which differ from the claimed keys
page, totalCount and brands. -/
theorem getAllBrands_keys_counterexample :
    payloadKeys (getAllBrands ("") 1 10 (fun _ _ _ => ([], 0))) =
      some ["pageId", "count", "brands"] ∧
    ((["pageId", "count", "brands"] : List String) ==
      ["page", "totalCount", "brands"]) = false :=
  ⟨rfl, by decide⟩

/-- C6 (amended): for every search text, page and limit, the successful
list-brands response payload is an object with exactly the fields pageId
(the page identifier), count (the total brand count) and brands (the array
of brand objects). -/
theorem getAllBrands_payload_shape :
    ∀ (search : String) (pageId limit : Nat)
      (getAll : String → Nat → Nat → List BrandEntity × Nat),
      getAllBrands search pageId limit getAll =
        .success (.obj [("pageId", .num pageId),
                        ("count", .num ((getAll search pageId limit).2)),
                        ("brands",
                         .arr (((getAll search pageId limit).1).map brandFull))]) ∧
      payloadKeys (getAllBrands search pageId limit getAll) =
        some ["pageId", "count", "brands"] :=
  fun _ _ _ _ => ⟨rfl, rfl⟩

/-- C7: every failure response of the cast-vote boundary is the structured
envelope with exactly the fields statusCode, context (the operation name
voteBrands) and message, and the message field holds the string summary of
the error, never a raw exception payload. -/
theorem voteBrands_failure_envelope :
    ∀ e : DomainError,
      voteBrands (.error e) =
        .failure (.obj [("statusCode", .num 500),
                        ("context", .str ("voteBrands")),
                        ("message", .str e.summary)]) :=
  fun _ => rfl

/-- C8: both vote operations return, on success, the list of records shaped
as id, date, position and a brand summary restricted to exactly id, name and
imageUrl. -/
theorem vote_ops_record_shape :
    (∀ votes : List VoteWithBrand,
        voteBrands (.ok votes) = .success (.arr (votes.map mapVote))) ∧
    (∀ (svc : JsNum → List VoteWithBrand) (s : String),
        getVotes svc s = .success (.arr ((svc (toNumber s)).map mapVote))) ∧
    (∀ v : VoteWithBrand,
        mapVote v = .obj [("id", .num v.id), ("date", .num v.date),
          ("position", .num v.position),
          ("brand", .obj [("id", .str v.brand.id), ("name", .str v.brand.name),
                          ("imageUrl", .str v.brand.imageUrl)])]) :=
  ⟨fun _ => rfl, fun _ _ => rfl, fun _ => rfl⟩

/-- C9: the read-user-profile operation returns exactly the fields id,
username and createdAt of the user and no others, although the entity
carries further columns. -/
theorem getUserById_profile_fields :
    ∀ u : UserEntity,
      getUserById u = .obj [("id", .num u.id), ("username", .str u.username),
                            ("createdAt", .num u.createdAt)] :=
  fun _ => rfl

/-- C10: the read-votes endpoint forwards the Number coercion of the raw
unixDate parameter to the service with no validation: every string produces a
success response built from the service value at that coercion, and a
non-numeric parameter is forwarded as NaN rather than rejected. -/
theorem getVotes_forwards_raw_number :
    (∀ (svc : JsNum → List VoteWithBrand) (s : String),
        getVotes svc s = .success (.arr ((svc (toNumber s)).map mapVote))) ∧
    toNumber ("not-a-number") = JsNum.nan ∧
    (∀ svc : JsNum → List VoteWithBrand,
        getVotes svc ("not-a-number") = .success (.arr ((svc JsNum.nan).map mapVote))) := by
  refine ⟨fun _ _ => rfl, by decide, fun svc => ?_⟩
  show hasResponse (.arr ((svc (toNumber ("not-a-number"))).map mapVote)) = _
  rw [show toNumber ("not-a-number") = JsNum.nan from by decide]
  rfl

end BRND
